import Mathlib

/-!
# Verification of the embedded-update core

A shallow embedding of the `embedded-update` crate: the wire protocol
(`Status` / `Command`), the in-memory reference service
(`src/service/memory.rs`), the updater state machine (`src/updater.rs`,
`FirmwareUpdater::check` / `run`), and the framed-serial device adapter
(`src/device/serial.rs`).

Modelling conventions:
* Byte slices (`&[u8]`, the `Bytes` wrapper) are `List Nat`; equality of
  `Bytes` in the source is byte-wise slice equality, which is list equality
  here.
* `u32` / `usize` quantities are `Nat`.  The only arithmetic the updater
  performs on them is `next_offset += data.len()`; offsets in any run are
  bounded by the firmware length, far below `2^32`, so wrap-around is not
  modelled.
* Async effects are made explicit: a service request either times out, fails,
  or yields a `Command` (the `Outcome` type); device calls performed by the
  updater are recorded as an explicit trace (the `DevCall` type).  Device
  back-ends used with the updater model (`Simulator`-like) are infallible,
  matching `Infallible` in the source; the fallible version decode
  (`F::Version::from_slice`, capacity-bounded `heapless::Vec`) is modelled by
  `fromSlice` with an explicit capacity.
-/

namespace EmbeddedUpdate

/-- Byte strings (`&[u8]` / the zero-copy `Bytes` wrapper of `protocol.rs`). -/
abbrev Bytes := List Nat

/-- The `update` sub-record of a `Status` (`protocol.rs`, `UpdateStatus`):
the target version being written and the next expected byte offset. -/
structure UpdateStatus where
  version : Bytes
  offset : Nat
deriving DecidableEq

/-- Device → service message (`protocol.rs`, `Status`). -/
structure Status where
  version : Bytes
  mtu : Option Nat
  correlation_id : Option Nat
  update : Option UpdateStatus
deriving DecidableEq

/-- Service → device message (`protocol.rs`, `Command`), fields in source
order.  The constructors keep the declaration order of the Rust enum
(`Wait`, `Sync`, `Write`, `Swap`). -/
inductive Command where
  | Wait (correlation_id : Option Nat) (poll : Option Nat)
  | Sync (version : Bytes) (correlation_id : Option Nat) (poll : Option Nat)
  | Write (version : Bytes) (correlation_id : Option Nat) (offset : Nat) (data : Bytes)
  | Swap (version : Bytes) (correlation_id : Option Nat) (checksum : Bytes)
deriving DecidableEq

/-- The in-memory reference service (`src/service/memory.rs`, `InMemory`). -/
structure InMemory where
  expected_version : Bytes
  expected_firmware : Bytes
deriving DecidableEq

/-- `InMemory::request` (`src/service/memory.rs`, lines 27-66).  The slice
`&data[a..a+n]` is `(data.drop a).take n`; `&data[..n]` is `data.take n`.
The service is infallible (`Error = Infallible`), so the `Ok` wrapper is
dropped. -/
def InMemory.request (svc : InMemory) (status : Status) : Command :=
  if svc.expected_version = status.version then
    .Sync svc.expected_version status.correlation_id none
  else
    match status.update with
    | some update =>
      if update.version = svc.expected_version then
        if svc.expected_firmware.length ≤ update.offset then
          -- Update is finished, instruct device to swap (checksum `&[]`)
          .Swap svc.expected_version status.correlation_id []
        else
          -- Continue updating
          let data := svc.expected_firmware
          let mtu := status.mtu.getD 16
          let to_copy := min mtu (data.length - update.offset)
          .Write svc.expected_version status.correlation_id update.offset
            ((data.drop update.offset).take to_copy)
      else
        -- Unexpected version in status update, we need to start at 0
        let data := svc.expected_firmware
        let mtu := status.mtu.getD 128
        let to_copy := min mtu data.length
        .Write svc.expected_version status.correlation_id 0 (data.take to_copy)
    | none =>
      -- No update status, start a new update
      let data := svc.expected_firmware
      let mtu := status.mtu.getD 128
      let to_copy := min mtu data.length
      .Write svc.expected_version status.correlation_id 0 (data.take to_copy)

/-! ## The updater state machine (`src/updater.rs`) -/

/-- Loop state of `FirmwareUpdater::check` (`updater.rs`, `UpdaterState`):
the version read from the device at the start, and the mirror of the
device's update progress used to build successive `Status` messages. -/
structure UpdaterState where
  current_version : Bytes
  next_offset : Nat
  next_version : Option Bytes
deriving DecidableEq

/-- The `Status` built at the top of each loop iteration
(`updater.rs`, lines 107-117): the update sub-record is present exactly when
`next_version` is set, `mtu` always advertises the device MTU, and no
correlation id is used. -/
def buildStatus (mtu : Nat) (st : UpdaterState) : Status :=
  match st.next_version with
  | some next => ⟨st.current_version, some mtu, none, some ⟨next, st.next_offset⟩⟩
  | none => ⟨st.current_version, some mtu, none, none⟩

/-- Device calls the updater can make, in the order it makes them
(the five operations of the `FirmwareDevice` trait). -/
inductive DevCall where
  | statusC
  | startC (version : Bytes)
  | writeC (offset : Nat) (data : Bytes)
  | syncedC
  | updateC (version : Bytes) (checksum : Bytes)
deriving DecidableEq

/-- What one `select(delay_fut, cmd_fut)` race can produce
(`updater.rs`, line 129): the timeout timer wins, the service wins with an
error, or the service wins with a command. -/
inductive Outcome where
  | timeout
  | svcErr
  | cmd (c : Command)
deriving DecidableEq

/-- How one loop iteration ends: fall through to the next iteration,
return `(synced, wait)` from `check`, or abort with the fatal
`Error::DecodeVersion`. -/
inductive IterRet where
  | next
  | done (synced : Bool) (wait : Option Nat)
  | fatal
deriving DecidableEq

/-- Result of one loop iteration: the device calls made (in order), the
committed loop state, and how the iteration ended.  On `fatal` the committed
state is irrelevant (`check` returns `Err`); we keep the pre-iteration
state. -/
structure IterOut where
  calls : List DevCall
  state : UpdaterState
  ret : IterRet
deriving DecidableEq

/-- `F::Version::from_slice` for a capacity-bounded version buffer
(`heapless::Vec<u8, cap>`): fails iff the slice exceeds the capacity. -/
def fromSlice (cap : Nat) (v : Bytes) : Option Bytes :=
  if v.length ≤ cap then some v else none

/-- The `wait` value returned with a successful `Sync`
(`updater.rs`, lines 122, 159-164): `poll_opt` starts as
`Some(backoff_ms / 1000)` and is replaced by the server's poll hint when that
hint is present and positive. -/
def pollOf (backoff : Nat) (poll : Option Nat) : Option Nat :=
  match poll with
  | some p => if 0 < p then some p else some (backoff / 1000)
  | none => some (backoff / 1000)

/-- One iteration of the `check` loop (`updater.rs`, lines 106-203), given
the outcome of the timeout/request race.
* timer wins, or service error: no device call, state unchanged, backoff and
  retry;
* `Write`: `device.start(version)` exactly when `offset == 0`, then
  `device.write(offset, data)`; the mirror advances by `data.len()` and
  `next_version` is replaced by the decoded version (decode failure is the
  fatal `DecodeVersion`);
* `Sync`: `device.synced()`, return `(true, poll_opt)`;
* `Wait`: nothing but the delay;
* `Swap`: `device.update(version, checksum)`, return `(false, None)`. -/
def stepIter (backoff cap : Nat) (st : UpdaterState) (o : Outcome) : IterOut :=
  match o with
  | .timeout => ⟨[], st, .next⟩
  | .svcErr => ⟨[], st, .next⟩
  | .cmd c =>
    match c with
    | .Wait _ _ => ⟨[], st, .next⟩
    | .Sync _ _ poll => ⟨[.syncedC], st, .done true (pollOf backoff poll)⟩
    | .Write v _ off data =>
      let calls := (if off = 0 then [DevCall.startC v] else []) ++ [DevCall.writeC off data]
      match fromSlice cap v with
      | some ver =>
        ⟨calls, { st with next_offset := st.next_offset + data.length,
                          next_version := some ver }, .next⟩
      | none => ⟨calls, st, .fatal⟩
    | .Swap v _ ck => ⟨[.updateC v ck], st, .done false none⟩

/-- How a (finite view of a) `check` run ends: the outcome trace ran out with
the loop still going, a fatal decode error, or a `(synced, wait)` return. -/
inductive CheckRes where
  | running
  | fatal
  | done (synced : Bool) (wait : Option Nat)
deriving DecidableEq

/-- Aggregate of a run: device calls in order, final committed state, and
the result. -/
structure RunOut where
  calls : List DevCall
  state : UpdaterState
  res : CheckRes
deriving DecidableEq

/-- The `check` loop driven by an explicit list of race outcomes (one per
iteration), open to any service behaviour.  Stops at the first `Sync` /
`Swap` / fatal decode. -/
def runIters (backoff cap : Nat) (st : UpdaterState) : List Outcome → RunOut
  | [] => ⟨[], st, .running⟩
  | o :: os =>
    let i := stepIter backoff cap st o
    match i.ret with
    | .next =>
      let r := runIters backoff cap i.state os
      ⟨i.calls ++ r.calls, r.state, r.res⟩
    | .done s w => ⟨i.calls, i.state, .done s w⟩
    | .fatal => ⟨i.calls, i.state, .fatal⟩

/-- Full device-call trace of `check`: the single `device.status()` read at
the start (`updater.rs`, line 94) followed by the loop's calls. -/
def checkTrace (backoff cap : Nat) (st : UpdaterState) (os : List Outcome) : List DevCall :=
  DevCall.statusC :: (runIters backoff cap st os).calls

/-- `DeviceStatus` (`updater.rs`): the two possible successful results of
`run`. -/
inductive DeviceStatus where
  | synced (wait : Option Nat)
  | updated
deriving DecidableEq

/-- `FirmwareUpdater::run` (`updater.rs`, lines 211-222) on top of a finished
`check`: `(true, wait) ↦ Synced wait`, `(false, _) ↦ Updated`; `none` when
the run did not finish inside the modelled trace (or aborted). -/
def runResult (r : RunOut) : Option DeviceStatus :=
  match r.res with
  | .done true w => some (.synced w)
  | .done false _ => some .updated
  | _ => none

/-- The closed loop against the in-memory reference service: every race is
won by the service, which answers `InMemory::request` of the status built
from the current loop state.  `fuel` bounds the number of iterations
modelled. -/
def runClosed (svc : InMemory) (backoff cap mtu : Nat) : Nat → UpdaterState → RunOut
  | 0, st => ⟨[], st, .running⟩
  | fuel + 1, st =>
    let i := stepIter backoff cap st (.cmd (svc.request (buildStatus mtu st)))
    match i.ret with
    | .next =>
      let r := runClosed svc backoff cap mtu fuel i.state
      ⟨i.calls ++ r.calls, r.state, r.res⟩
    | .done s w => ⟨i.calls, i.state, .done s w⟩
    | .fatal => ⟨i.calls, i.state, .fatal⟩

/-- Number of `device.start` calls in a trace. -/
def countStart (calls : List DevCall) : Nat :=
  (calls.filter fun c => match c with | .startC _ => true | _ => false).length

/-- Number of `device.status` calls in a trace. -/
def countStatus (calls : List DevCall) : Nat :=
  (calls.filter fun c => match c with | .statusC => true | _ => false).length

/-! ## The framed-serial device adapter (`src/device/serial.rs`)

`Serial<T>` mirrors the last known firmware status locally
(`FirmwareStatus<Vec<u8, 16>>`) and translates each `FirmwareDevice` call into
a framed wire exchange.  We model the locally mirrored status and, for each
operation, the `Command` it would encode onto the wire; transport and
encode errors are orthogonal to the mirrored state and are not modelled.
`heapless::Vec::from_slice` into the 16-byte version buffer fails iff the
slice is longer than 16 (`SerialError::Other`). -/

/-- The local mirror `Serial::status: FirmwareStatus<Vec<u8,16>>`. -/
structure SerialState where
  current_version : Bytes
  next_offset : Nat
  next_version : Option Bytes
deriving DecidableEq

/-- Capacity of the serial adapter's version buffers (`Vec<u8, 16>`). -/
def serialCap : Nat := 16

/-- `Serial::start` (`device/serial.rs`, lines 88-96): reset the mirrored
offset to 0, then replace `next_version` with a copy of `version`;
`Err(Other)` if the version does not fit the 16-byte buffer (the offset
reset has already happened by then). -/
def serialStart (st : SerialState) (version : Bytes) : Except Unit SerialState :=
  if version.length ≤ serialCap then
    .ok { st with next_offset := 0, next_version := some version }
  else
    .error ()

/-- `Serial::write` (`device/serial.rs`, lines 103-110): builds
`Command::new_write(self.status.next_version.as_ref().unwrap(), offset, data,
None)` for the wire.  The `unwrap` panics when `next_version` is `None`;
the panic is modelled as `none`. -/
def serialWrite (st : SerialState) (offset : Nat) (data : Bytes) : Option Command :=
  match st.next_version with
  | some v => some (Command.Write v none offset data)
  | none => none

/-- `Serial::status` (`device/serial.rs`, lines 63-81): decode a `Status`
frame, copy its version into the mirror, and, when an `update` sub-record is
present, copy its offset and version too.  Either copy fails with
`Err(Other)` past 16 bytes. -/
def serialStatus (st : SerialState) (received : Status) : Except Unit SerialState :=
  if received.version.length ≤ serialCap then
    let st1 := { st with current_version := received.version }
    match received.update with
    | some u =>
      if u.version.length ≤ serialCap then
        .ok { st1 with next_offset := u.offset, next_version := some u.version }
      else
        .error ()
    | none => .ok st1
  else
    .error ()

/-! ## C1-C3: the in-memory reference service decision function -/

/-- C1: for every `Status` whose version is byte-equal to the service's
`expected_version`, `InMemory::request` returns `Sync` with
`version = expected_version`, `poll = None` and the status's correlation id
echoed, regardless of `S.update` and `S.mtu`. -/
theorem inMemory_sync_on_version_match (svc : InMemory) (S : Status)
    (h : S.version = svc.expected_version) :
    svc.request S = Command.Sync svc.expected_version S.correlation_id none := by
  simp [InMemory.request, h]

/-- Witness for `inMemory_sync_on_version_match` at a concrete status. -/
theorem inMemory_sync_on_version_match_witness :
    InMemory.request ⟨[1], [7, 7]⟩ ⟨[1], some 4, some 9, none⟩ =
      Command.Sync [1] (some 9) none :=
  inMemory_sync_on_version_match ⟨[1], [7, 7]⟩ ⟨[1], some 4, some 9, none⟩ rfl

/-- C2: for a status with a version mismatch and an explicit MTU `m`:
with an in-progress update for the expected version at an offset inside the
firmware, the service continues with
`Write(expected_version, offset, firmware[offset .. offset + min m (len-offset)])`;
with no in-progress update, or an in-progress update for some other version,
it restarts with `Write(expected_version, 0, firmware[.. min m len])`.
The correlation id is echoed in each case (it sits in the returned
`Command.Write`). -/
theorem inMemory_write_blocks (svc : InMemory) (S : Status) (m : Nat)
    (hv : S.version ≠ svc.expected_version) (hm : S.mtu = some m) :
    (∀ u, S.update = some u → u.version = svc.expected_version →
      u.offset < svc.expected_firmware.length →
      svc.request S = Command.Write svc.expected_version S.correlation_id u.offset
        ((svc.expected_firmware.drop u.offset).take
          (min m (svc.expected_firmware.length - u.offset)))) ∧
    (S.update = none →
      svc.request S = Command.Write svc.expected_version S.correlation_id 0
        (svc.expected_firmware.take (min m svc.expected_firmware.length))) ∧
    (∀ u, S.update = some u → u.version ≠ svc.expected_version →
      svc.request S = Command.Write svc.expected_version S.correlation_id 0
        (svc.expected_firmware.take (min m svc.expected_firmware.length))) := by
  have hne : ¬ svc.expected_version = S.version := fun h => hv h.symm
  refine ⟨?_, ?_, ?_⟩
  · intro u hu huv hoff
    simp [InMemory.request, hne, hu, huv, Nat.not_le.mpr hoff, hm]
  · intro hu
    simp [InMemory.request, hne, hu, hm]
  · intro u hu huv
    simp [InMemory.request, hne, hu, huv, hm]

/-- Witness for `inMemory_write_blocks`: resuming at offset 1 with MTU 2 on a
4-byte firmware yields the 2-byte block starting at offset 1. -/
theorem inMemory_write_blocks_witness :
    InMemory.request ⟨[2], [10, 11, 12, 13]⟩ ⟨[1], some 2, some 5, some ⟨[2], 1⟩⟩ =
      Command.Write [2] (some 5) 1 [11, 12] := by
  have h := (inMemory_write_blocks ⟨[2], [10, 11, 12, 13]⟩
    ⟨[1], some 2, some 5, some ⟨[2], 1⟩⟩ 2 (by decide) rfl).1 ⟨[2], 1⟩ rfl rfl (by decide)
  simpa using h

/-- C3 counterexample: at a status whose in-progress offset has reached the
firmware length, `InMemory::request` returns `Swap` with an EMPTY checksum
(`Command::new_swap(self.expected_version, &[], ...)` in
`src/service/memory.rs`, line 35), not a 32-byte zero array as claimed. -/
theorem inMemory_swap_checksum_cex :
    InMemory.request ⟨[2], [9]⟩ ⟨[1], some 4, some 7, some ⟨[2], 1⟩⟩ =
      Command.Swap [2] (some 7) [] ∧
    InMemory.request ⟨[2], [9]⟩ ⟨[1], some 4, some 7, some ⟨[2], 1⟩⟩ ≠
      Command.Swap [2] (some 7) (List.replicate 32 0) := by
  decide

/-- C3 amended: for a status with a version mismatch and an in-progress
update for the expected version whose offset has reached or passed the
firmware length, the service returns `Swap` with `version =
expected_version`, the correlation id echoed, and an empty checksum. -/
theorem inMemory_swap_on_complete (svc : InMemory) (S : Status) (u : UpdateStatus)
    (hv : S.version ≠ svc.expected_version) (hu : S.update = some u)
    (huv : u.version = svc.expected_version)
    (hoff : svc.expected_firmware.length ≤ u.offset) :
    svc.request S = Command.Swap svc.expected_version S.correlation_id [] := by
  have hne : ¬ svc.expected_version = S.version := fun h => hv h.symm
  simp [InMemory.request, hne, hu, huv, hoff]

/-- Witness for `inMemory_swap_on_complete`. -/
theorem inMemory_swap_on_complete_witness :
    InMemory.request ⟨[2], [9]⟩ ⟨[1], none, none, some ⟨[2], 3⟩⟩ =
      Command.Swap [2] none [] :=
  inMemory_swap_on_complete ⟨[2], [9]⟩ ⟨[1], none, none, some ⟨[2], 3⟩⟩ ⟨[2], 3⟩
    (by decide) rfl rfl (by decide)

/-! ## Helper lemmas about the updater loop -/

theorem countStatus_append (a b : List DevCall) :
    countStatus (a ++ b) = countStatus a + countStatus b := by
  simp [countStatus, List.filter_append]

theorem countStart_append (a b : List DevCall) :
    countStart (a ++ b) = countStart a + countStart b := by
  simp [countStart, List.filter_append]

/-- No loop iteration ever calls `device.status`: the only `status()` read is
the one before the loop (`updater.rs`, line 94). -/
theorem countStatus_stepIter (backoff cap : Nat) (st : UpdaterState) (o : Outcome) :
    countStatus (stepIter backoff cap st o).calls = 0 := by
  rcases o with _ | _ | c
  · rfl
  · rfl
  rcases c with ⟨cid, poll⟩ | ⟨v, cid, poll⟩ | ⟨v, cid, off, data⟩ | ⟨v, cid, ck⟩
  · rfl
  · rfl
  · rcases hfs : fromSlice cap v with _ | ver <;>
      by_cases ho : off = 0 <;>
        simp [stepIter, hfs, ho, countStatus]
  · rfl

theorem countStatus_runIters (backoff cap : Nat) (os : List Outcome) (st : UpdaterState) :
    countStatus (runIters backoff cap st os).calls = 0 := by
  induction os generalizing st with
  | nil => rfl
  | cons o os ih =>
    rcases hstep : stepIter backoff cap st o with ⟨calls, st', ret⟩
    have hcalls : countStatus calls = 0 := by
      have := countStatus_stepIter backoff cap st o
      rw [hstep] at this
      exact this
    rcases ret with _ | ⟨s, w⟩ | _ <;>
      simp [runIters, hstep, countStatus_append, hcalls, ih]

/-! ## C7: transient failures (service error / timeout) have no effect -/

/-- C7: if the service request errors out, or the timeout timer wins the
race, the iteration makes no device call and leaves the committed loop state
(`current_version`, `next_offset`, `next_version`) untouched, so the retried
`Status` is identical; and `device.status` is called exactly once per
`check` invocation, at the start, never after a failure. -/
theorem updater_transient_failure_no_effect (backoff cap mtu : Nat) (st : UpdaterState) :
    stepIter backoff cap st .timeout = ⟨[], st, .next⟩ ∧
    stepIter backoff cap st .svcErr = ⟨[], st, .next⟩ ∧
    buildStatus mtu (stepIter backoff cap st .timeout).state = buildStatus mtu st ∧
    buildStatus mtu (stepIter backoff cap st .svcErr).state = buildStatus mtu st ∧
    (∀ os st0, countStatus (checkTrace backoff cap st0 os) = 1) := by
  refine ⟨rfl, rfl, rfl, rfl, ?_⟩
  intro os st0
  have h := countStatus_runIters backoff cap os st0
  simp [checkTrace, countStatus, List.filter] at h ⊢
  exact h

/-! ## C8-C9 helpers: how an iteration can end the loop -/

/-- An iteration ends `check` only through `Sync` (then `synced()` was the
call made and the wait is the backoff default or a positive server hint) or
through `Swap` (then `update()` was the call made and the wait is `None`). -/
theorem stepIter_done_shape (backoff cap : Nat) (st : UpdaterState) (o : Outcome)
    (calls : List DevCall) (st' : UpdaterState) (s : Bool) (w : Option Nat)
    (h : stepIter backoff cap st o = ⟨calls, st', .done s w⟩) :
    (s = true ∧ calls = [DevCall.syncedC] ∧
      (w = some (backoff / 1000) ∨ ∃ p, 0 < p ∧ w = some p)) ∨
    (s = false ∧ w = none ∧ ∃ v ck, calls = [DevCall.updateC v ck]) := by
  rcases o with _ | _ | c
  · cases h
  · cases h
  rcases c with ⟨cid, poll⟩ | ⟨v, cid, poll⟩ | ⟨v, cid, off, data⟩ | ⟨v, cid, ck⟩
  · cases h
  · left
    have hs : calls = [DevCall.syncedC] ∧ s = true ∧ w = pollOf backoff poll := by
      have h' := h.symm
      simp [stepIter] at h'
      exact ⟨h'.1, h'.2.2.1, h'.2.2.2⟩
    refine ⟨hs.2.1, hs.1, ?_⟩
    rcases poll with _ | p
    · left; simp [hs.2.2, pollOf]
    · by_cases hp : 0 < p
      · right; exact ⟨p, hp, by simp [hs.2.2, pollOf, hp]⟩
      · left; simp [hs.2.2, pollOf, hp]
  · rcases hfs : fromSlice cap v with _ | ver <;> simp [stepIter, hfs] at h
  · right
    have h' := h.symm
    simp [stepIter] at h'
    exact ⟨h'.2.2.1, h'.2.2.2, v, ck, h'.1⟩

/-- Continuing a still-running trace with further outcomes resumes from the
committed state, prepending the calls already made. -/
theorem runIters_append (backoff cap : Nat) (os os' : List Outcome) (st : UpdaterState)
    (h : (runIters backoff cap st os).res = .running) :
    runIters backoff cap st (os ++ os') =
      ⟨(runIters backoff cap st os).calls ++
        (runIters backoff cap (runIters backoff cap st os).state os').calls,
       (runIters backoff cap (runIters backoff cap st os).state os').state,
       (runIters backoff cap (runIters backoff cap st os).state os').res⟩ := by
  induction os generalizing st with
  | nil => simp [runIters]
  | cons o os ih =>
    rcases hstep : stepIter backoff cap st o with ⟨calls, st', ret⟩
    rcases ret with _ | ⟨s, w⟩ | _
    · have h' : (runIters backoff cap st' os).res = .running := by
        simpa [runIters, hstep] using h
      simp [runIters, hstep, ih st' h']
    · simp [runIters, hstep] at h
    · simp [runIters, hstep] at h

/-- A run of the loop ends in `(synced, wait)` only with: `synced = true`,
last device call `synced()` and a `wait` that is the backoff default or a
positive hint; or `synced = false`, `wait = None` and last device call
`update(...)`. -/
theorem runIters_done_shape (backoff cap : Nat) (os : List Outcome) (st : UpdaterState)
    (s : Bool) (w : Option Nat)
    (h : (runIters backoff cap st os).res = .done s w) :
    (s = true ∧ (∃ pre, (runIters backoff cap st os).calls = pre ++ [DevCall.syncedC]) ∧
      (w = some (backoff / 1000) ∨ ∃ p, 0 < p ∧ w = some p)) ∨
    (s = false ∧ w = none ∧
      ∃ pre v ck, (runIters backoff cap st os).calls = pre ++ [DevCall.updateC v ck]) := by
  induction os generalizing st with
  | nil => simp [runIters] at h
  | cons o os ih =>
    rcases hstep : stepIter backoff cap st o with ⟨calls, st', ret⟩
    rcases ret with _ | ⟨s', w'⟩ | _
    · have h' : (runIters backoff cap st' os).res = .done s w := by
        simpa [runIters, hstep] using h
      rcases ih st' h' with ⟨hs, ⟨pre, hpre⟩, hw⟩ | ⟨hs, hw, pre, v, ck, hpre⟩
      · refine Or.inl ⟨hs, ⟨calls ++ pre, ?_⟩, hw⟩
        simp [runIters, hstep, hpre]
      · refine Or.inr ⟨hs, hw, calls ++ pre, v, ck, ?_⟩
        simp [runIters, hstep, hpre]
    · have hsw : s' = s ∧ w' = w := by
        simpa [runIters, hstep] using h
      rcases stepIter_done_shape backoff cap st o calls st' s' w' hstep with
        ⟨hs, hc, hw⟩ | ⟨hs, hw, v, ck, hc⟩
      · refine Or.inl ⟨hsw.1 ▸ hs, ⟨[], ?_⟩, hsw.2 ▸ hw⟩
        simp [runIters, hstep, hc]
      · refine Or.inr ⟨hsw.1 ▸ hs, hsw.2 ▸ hw, [], v, ck, ?_⟩
        simp [runIters, hstep, hc]
    · simp [runIters, hstep] at h

/-! ## C8: successful runs end in `Synced` after `synced()` or `Updated` after `update()` -/

/-- C8: whenever `run` returns `Ok`, the result is either `Synced` and the
last device call of the run was `synced()` (the `Sync` handler is the only
place returning `(true, _)` and it calls `synced()` just before), or
`Updated` and the last device call was `update(...)` (the `Swap` handler,
the only place returning `(false, None)`) — the two are mutually exclusive
by constructor disjointness.  Moreover a `Sync` command carrying a positive
poll hint `p` that ends a still-running trace makes the result
`Synced (some p)`. -/
theorem updater_termination_shape (backoff cap : Nat) :
    (∀ st os ds, runResult (runIters backoff cap st os) = some ds →
      (∃ w pre, ds = .synced w ∧
        (runIters backoff cap st os).calls = pre ++ [DevCall.syncedC]) ∨
      (ds = .updated ∧ ∃ pre v ck,
        (runIters backoff cap st os).calls = pre ++ [DevCall.updateC v ck])) ∧
    (∀ st v cid p, 0 < p →
      stepIter backoff cap st (.cmd (.Sync v cid (some p))) =
        ⟨[DevCall.syncedC], st, .done true (some p)⟩) ∧
    (∀ st os v cid p, 0 < p → (runIters backoff cap st os).res = .running →
      runResult (runIters backoff cap st (os ++ [.cmd (.Sync v cid (some p))])) =
        some (.synced (some p))) := by
  refine ⟨?_, ?_, ?_⟩
  · intro st os ds h
    rcases hres : (runIters backoff cap st os).res with _ | _ | ⟨s, w⟩
    · simp [runResult, hres] at h
    · simp [runResult, hres] at h
    cases s
    · simp [runResult, hres] at h
      rcases runIters_done_shape backoff cap os st false w hres with
        ⟨hs, _, _⟩ | ⟨_, _, pre, v, ck, hpre⟩
      · cases hs
      · exact Or.inr ⟨h.symm, pre, v, ck, hpre⟩
    · simp [runResult, hres] at h
      rcases runIters_done_shape backoff cap os st true w hres with
        ⟨_, ⟨pre, hpre⟩, _⟩ | ⟨hs, _, _⟩
      · exact Or.inl ⟨w, pre, h.symm, hpre⟩
      · cases hs
  · intro st v cid p hp
    simp [stepIter, pollOf, hp]
  · intro st os v cid p hp hrun
    rw [runIters_append backoff cap os [.cmd (.Sync v cid (some p))] st hrun]
    simp [runResult, runIters, stepIter, pollOf, hp]

/-- Witness for `updater_termination_shape`: ending an empty (still-running)
trace with `Sync{poll=Some 10}` returns `Synced (Some 10)`. -/
theorem updater_termination_shape_witness :
    runResult (runIters 1000 16 ⟨[1], 0, none⟩
      ([] ++ [.cmd (.Sync [1] none (some 10))])) = some (.synced (some 10)) :=
  (updater_termination_shape 1000 16).2.2 ⟨[1], 0, none⟩ [] [1] none 10 (by decide) rfl

/-! ## C9: a `Synced` result always carries `Some` wait -/

/-- C9: `run` never returns `Ok(Synced(None))`: a `(true, wait)` return has
`wait = Some`; it equals the `Sync` command's poll hint when present and
positive, and `backoff_ms / 1000` otherwise (hence `Some 0` when
`backoff_ms < 1000`, by integer division). -/
theorem updater_synced_wait_some (backoff cap : Nat) :
    (∀ st os w, (runIters backoff cap st os).res = .done true w →
      w = some (backoff / 1000) ∨ ∃ p, 0 < p ∧ w = some p) ∧
    (∀ st os w, runResult (runIters backoff cap st os) = some (.synced w) →
      w ≠ none) ∧
    (∀ st v cid p, 0 < p →
      (stepIter backoff cap st (.cmd (.Sync v cid (some p)))).ret = .done true (some p)) ∧
    (∀ st v cid,
      (stepIter backoff cap st (.cmd (.Sync v cid none))).ret =
        .done true (some (backoff / 1000))) ∧
    (∀ st v cid,
      (stepIter backoff cap st (.cmd (.Sync v cid (some 0)))).ret =
        .done true (some (backoff / 1000))) ∧
    (∀ st v cid, backoff < 1000 →
      (stepIter backoff cap st (.cmd (.Sync v cid none))).ret = .done true (some 0)) := by
  have hmain : ∀ st os w, (runIters backoff cap st os).res = .done true w →
      w = some (backoff / 1000) ∨ ∃ p, 0 < p ∧ w = some p := by
    intro st os w h
    rcases runIters_done_shape backoff cap os st true w h with
      ⟨_, _, hw⟩ | ⟨hs, _, _⟩
    · exact hw
    · cases hs
  refine ⟨hmain, ?_, ?_, ?_, ?_, ?_⟩
  · intro st os w h
    rcases hres : (runIters backoff cap st os).res with _ | _ | ⟨s, w'⟩
    · simp [runResult, hres] at h
    · simp [runResult, hres] at h
    cases s
    · simp [runResult, hres] at h
    · simp [runResult, hres] at h
      rcases hmain st os w' hres with hw | ⟨p, _, hw⟩ <;>
        simp [← h, hw]
  · intro st v cid p hp
    simp [stepIter, pollOf, hp]
  · intro st v cid
    simp [stepIter, pollOf]
  · intro st v cid
    simp [stepIter, pollOf]
  · intro st v cid hb
    simp [stepIter, pollOf, Nat.div_eq_of_lt hb]

/-- Witness for `updater_synced_wait_some`: a one-iteration run ending in
`Sync{poll=Some 10}` yields a wait of the shape the theorem states. -/
theorem updater_synced_wait_some_witness :
    (some 10 : Option Nat) = some (1000 / 1000) ∨
      ∃ p, 0 < p ∧ (some 10 : Option Nat) = some p :=
  (updater_synced_wait_some 1000 16).1 ⟨[1], 0, none⟩
    [.cmd (.Sync [1] none (some 10))] (some 10) (by decide)

/-! ## Helpers about `Write` processing and the reference service's commands -/

theorem fromSlice_some (cap : Nat) (v ver : Bytes) (h : fromSlice cap v = some ver) :
    ver = v := by
  unfold fromSlice at h
  by_cases hc : v.length ≤ cap
  · simp [hc] at h; exact h.symm
  · simp [hc] at h

/-- Processing `Write{offset=0}` calls `device.start(version)` and then
`device.write(0, data)`, in that order. -/
theorem stepIter_write_calls_zero (backoff cap : Nat) (st : UpdaterState)
    (v : Bytes) (cid : Option Nat) (data : Bytes) :
    (stepIter backoff cap st (.cmd (.Write v cid 0 data))).calls =
      [DevCall.startC v, DevCall.writeC 0 data] := by
  rcases hfs : fromSlice cap v with _ | ver <;> simp [stepIter, hfs]

/-- Processing `Write{offset≠0}` calls only `device.write(offset, data)`. -/
theorem stepIter_write_calls_pos (backoff cap : Nat) (st : UpdaterState)
    (v : Bytes) (cid : Option Nat) (off : Nat) (data : Bytes) (hoff : off ≠ 0) :
    (stepIter backoff cap st (.cmd (.Write v cid off data))).calls =
      [DevCall.writeC off data] := by
  rcases hfs : fromSlice cap v with _ | ver <;> simp [stepIter, hfs, hoff]

/-- `device.start` is called only while processing a `Write` with
`offset == 0`, and with that command's version. -/
theorem stepIter_start_mem (backoff cap : Nat) (st : UpdaterState) (o : Outcome) (v : Bytes)
    (h : DevCall.startC v ∈ (stepIter backoff cap st o).calls) :
    ∃ cid data, o = .cmd (.Write v cid 0 data) := by
  rcases o with _ | _ | c
  · simp [stepIter] at h
  · simp [stepIter] at h
  rcases c with ⟨cid, poll⟩ | ⟨v', cid, poll⟩ | ⟨v', cid, off, data⟩ | ⟨v', cid, ck⟩
  · simp [stepIter] at h
  · simp [stepIter] at h
  · by_cases hoff : off = 0
    · subst hoff
      rw [stepIter_write_calls_zero] at h
      simp at h
      exact ⟨cid, data, by simp [h]⟩
    · rw [stepIter_write_calls_pos backoff cap st v' cid off data hoff] at h
      simp at h
  · simp [stepIter] at h

/-- `device.write(offset, data)` is called only while processing a `Write`
carrying that offset and data. -/
theorem stepIter_write_mem (backoff cap : Nat) (st : UpdaterState) (o : Outcome)
    (off : Nat) (data : Bytes)
    (h : DevCall.writeC off data ∈ (stepIter backoff cap st o).calls) :
    ∃ v cid, o = .cmd (.Write v cid off data) := by
  rcases o with _ | _ | c
  · simp [stepIter] at h
  · simp [stepIter] at h
  rcases c with ⟨cid, poll⟩ | ⟨v', cid, poll⟩ | ⟨v', cid, off', data'⟩ | ⟨v', cid, ck⟩
  · simp [stepIter] at h
  · simp [stepIter] at h
  · by_cases hoff : off' = 0
    · subst hoff
      rw [stepIter_write_calls_zero] at h
      simp at h
      exact ⟨v', cid, by simp [h]⟩
    · rw [stepIter_write_calls_pos backoff cap st v' cid off' data' hoff] at h
      simp at h
      exact ⟨v', cid, by simp [h]⟩
  · simp [stepIter] at h

/-- Any single iteration calls `device.start` at most once. -/
theorem countStart_stepIter_le (backoff cap : Nat) (st : UpdaterState) (o : Outcome) :
    countStart (stepIter backoff cap st o).calls ≤ 1 := by
  rcases o with _ | _ | c
  · simp [stepIter, countStart]
  · simp [stepIter, countStart]
  rcases c with ⟨cid, poll⟩ | ⟨v, cid, poll⟩ | ⟨v, cid, off, data⟩ | ⟨v, cid, ck⟩
  · simp [stepIter, countStart]
  · simp [stepIter, countStart]
  · rcases hfs : fromSlice cap v with _ | ver <;>
      by_cases hoff : off = 0 <;>
        simp [stepIter, hfs, hoff, countStart]
  · simp [stepIter, countStart]

/-- The in-memory service never answers `Wait`. -/
theorem request_ne_wait (svc : InMemory) (S : Status) (cid : Option Nat)
    (poll : Option Nat) : svc.request S ≠ .Wait cid poll := by
  unfold InMemory.request
  by_cases h1 : svc.expected_version = S.version
  · simp [h1]
  · rcases hu : S.update with _ | u
    · simp [h1, hu]
    · by_cases h2 : u.version = svc.expected_version
      · by_cases h3 : svc.expected_firmware.length ≤ u.offset <;>
          simp [h1, hu, h2, h3]
      · simp [h1, hu, h2]

/-- Every `Write` the in-memory service issues carries the expected
(target) version. -/
theorem request_write_version (svc : InMemory) (S : Status) (v : Bytes)
    (cid : Option Nat) (off : Nat) (data : Bytes)
    (h : svc.request S = .Write v cid off data) : v = svc.expected_version := by
  unfold InMemory.request at h
  by_cases h1 : svc.expected_version = S.version
  · simp [h1] at h
  · rcases hu : S.update with _ | u
    · simp [h1, hu] at h
      exact h.1.symm
    · by_cases h2 : u.version = svc.expected_version
      · by_cases h3 : svc.expected_firmware.length ≤ u.offset
        · simp [h1, hu, h2, h3] at h
        · simp [h1, hu, h2, h3] at h
          exact h.1.symm
      · simp [h1, hu, h2] at h
        exact h.1.symm

/-- Every `Write` block the in-memory service issues respects the MTU
advertised in the status. -/
theorem request_write_data_le (svc : InMemory) (S : Status) (m : Nat)
    (hm : S.mtu = some m) (v : Bytes) (cid : Option Nat) (off : Nat) (data : Bytes)
    (h : svc.request S = .Write v cid off data) : data.length ≤ m := by
  unfold InMemory.request at h
  by_cases h1 : svc.expected_version = S.version
  · simp [h1] at h
  · rcases hu : S.update with _ | u
    · simp [h1, hu, hm] at h
      rw [← h.2.2.2]
      simp [List.length_take]
    · by_cases h2 : u.version = svc.expected_version
      · by_cases h3 : svc.expected_firmware.length ≤ u.offset
        · simp [h1, hu, h2, h3] at h
        · simp [h1, hu, h2, h3, hm] at h
          rw [← h.2.2.2]
          simp [List.length_take]
      · simp [h1, hu, h2, hm] at h
        rw [← h.2.2.2]
        simp [List.length_take]

/-- Every `Write` block the in-memory service issues is non-empty, unless
the whole expected firmware is empty (blocks are `min` of a positive MTU and
a positive remainder). -/
theorem request_write_block_pos (svc : InMemory) (S : Status) (m : Nat)
    (hm : S.mtu = some m) (hm0 : 0 < m)
    (v : Bytes) (cid : Option Nat) (off : Nat) (data : Bytes)
    (h : svc.request S = .Write v cid off data) :
    0 < data.length ∨ svc.expected_firmware.length = 0 := by
  unfold InMemory.request at h
  by_cases h1 : svc.expected_version = S.version
  · simp [h1] at h
  · rcases hu : S.update with _ | u
    · simp [h1, hu, hm] at h
      rcases Nat.eq_zero_or_pos svc.expected_firmware.length with hL | hL
      · exact Or.inr hL
      · left
        rw [← h.2.2.2]
        simp [List.length_take]
        omega
    · by_cases h2 : u.version = svc.expected_version
      · by_cases h3 : svc.expected_firmware.length ≤ u.offset
        · simp [h1, hu, h2, h3] at h
        · simp [h1, hu, h2, h3, hm] at h
          left
          rw [← h.2.2.2]
          simp [List.length_take]
          omega
      · simp [h1, hu, h2, hm] at h
        rcases Nat.eq_zero_or_pos svc.expected_firmware.length with hL | hL
        · exact Or.inr hL
        · left
          rw [← h.2.2.2]
          simp [List.length_take]
          omega

theorem buildStatus_mtu (mtu : Nat) (st : UpdaterState) :
    (buildStatus mtu st).mtu = some mtu := by
  rcases hnv : st.next_version with _ | nv <;> simp [buildStatus, hnv]

/-! ## The closed loop against the reference service starts at most once -/

/-- Invariant of the closed loop after the first processed `Write`: the
mirror tracks the expected target version, and its offset is positive or
already past the end of the firmware.  A status built from such a state can
never make the reference service answer `Write{offset=0}` again. -/
def startInv (svc : InMemory) (st : UpdaterState) : Prop :=
  st.next_version = some svc.expected_version ∧
    (0 < st.next_offset ∨ svc.expected_firmware.length ≤ st.next_offset)

/-- After any iteration of the closed loop that falls through to the next
one, the invariant holds (needs a positive MTU so blocks are non-empty). -/
theorem closed_next_startInv (svc : InMemory) (backoff cap mtu : Nat) (hm : 0 < mtu)
    (st : UpdaterState)
    (h : (stepIter backoff cap st (.cmd (svc.request (buildStatus mtu st)))).ret = .next) :
    startInv svc (stepIter backoff cap st (.cmd (svc.request (buildStatus mtu st)))).state := by
  rcases hcmd : svc.request (buildStatus mtu st) with
    ⟨cid, poll⟩ | ⟨v, cid, poll⟩ | ⟨v, cid, off, data⟩ | ⟨v, cid, ck⟩
  · exact absurd hcmd (request_ne_wait svc _ cid poll)
  · rw [hcmd] at h; simp [stepIter] at h
  · rw [hcmd] at h
    rcases hfs : fromSlice cap v with _ | ver
    · simp [stepIter, hfs] at h
    · have hv : ver = v := fromSlice_some cap v ver hfs
      have hver : v = svc.expected_version :=
        request_write_version svc _ v cid off data hcmd
      have hpos := request_write_block_pos svc (buildStatus mtu st) mtu
        (buildStatus_mtu mtu st) hm v cid off data hcmd
      constructor
      · simp [stepIter, hfs]
        simp [hv, hver]
      · rcases hpos with hp | hL
        · left
          simp [stepIter, hfs]
          omega
        · right
          simp [stepIter, hfs, hL]
  · rw [hcmd] at h; simp [stepIter] at h

/-- Once the invariant holds, a closed-loop iteration makes no
`device.start` call and, if the loop continues, preserves the invariant. -/
theorem closedStep_preserves (svc : InMemory) (backoff cap mtu : Nat) (st : UpdaterState)
    (hinv : startInv svc st) :
    countStart (stepIter backoff cap st (.cmd (svc.request (buildStatus mtu st)))).calls = 0 ∧
    ((stepIter backoff cap st (.cmd (svc.request (buildStatus mtu st)))).ret = .next →
      startInv svc (stepIter backoff cap st (.cmd (svc.request (buildStatus mtu st)))).state) := by
  obtain ⟨hnv, hoffinv⟩ := hinv
  have hbs : buildStatus mtu st =
      ⟨st.current_version, some mtu, none, some ⟨svc.expected_version, st.next_offset⟩⟩ := by
    simp [buildStatus, hnv]
  by_cases h1 : svc.expected_version = st.current_version
  · have hcmd : svc.request (buildStatus mtu st) =
        .Sync svc.expected_version none none := by
      rw [hbs]; simp [InMemory.request, h1]
    rw [hcmd]
    exact ⟨by simp [stepIter, countStart], by simp [stepIter]⟩
  · by_cases h3 : svc.expected_firmware.length ≤ st.next_offset
    · have hcmd : svc.request (buildStatus mtu st) =
          .Swap svc.expected_version none [] := by
        rw [hbs]; simp [InMemory.request, h1, h3]
      rw [hcmd]
      exact ⟨by simp [stepIter, countStart], by simp [stepIter]⟩
    · have hoff : 0 < st.next_offset := by
        rcases hoffinv with hp | hL
        · exact hp
        · exact absurd hL h3
      have hcmd : svc.request (buildStatus mtu st) =
          .Write svc.expected_version none st.next_offset
            ((svc.expected_firmware.drop st.next_offset).take
              (min (mtu) (svc.expected_firmware.length - st.next_offset))) := by
        rw [hbs]; simp [InMemory.request, h1, h3]
      rw [hcmd]
      constructor
      · rw [stepIter_write_calls_pos backoff cap st _ _ _ _ (Nat.pos_iff_ne_zero.mp hoff)]
        simp [countStart]
      · intro hnext
        rcases hfs : fromSlice cap svc.expected_version with _ | ver
        · simp [stepIter, hfs] at hnext
        · have hv : ver = svc.expected_version := fromSlice_some cap _ ver hfs
          constructor
          · simp [stepIter, hfs, hv]
          · left
            simp [stepIter, hfs]
            omega

/-- From a state satisfying the invariant, the closed loop never calls
`device.start` again. -/
theorem countStart_runClosed_zero (svc : InMemory) (backoff cap mtu : Nat)
    (fuel : Nat) (st : UpdaterState) (hinv : startInv svc st) :
    countStart (runClosed svc backoff cap mtu fuel st).calls = 0 := by
  induction fuel generalizing st with
  | zero => rfl
  | succ fuel ih =>
    rcases hstep : stepIter backoff cap st (.cmd (svc.request (buildStatus mtu st))) with
      ⟨calls, st', ret⟩
    have hpres := closedStep_preserves svc backoff cap mtu st hinv
    rw [hstep] at hpres
    rcases ret with _ | ⟨s, w⟩ | _
    · simp [runClosed, hstep, countStart_append, hpres.1, ih st' (hpres.2 rfl)]
    · simp [runClosed, hstep, hpres.1]
    · simp [runClosed, hstep, hpres.1]

/-- Against the reference service, a whole closed run calls `device.start`
at most once (positive MTU). -/
theorem countStart_runClosed_le_one (svc : InMemory) (backoff cap mtu : Nat)
    (hm : 0 < mtu) (fuel : Nat) (st : UpdaterState) :
    countStart (runClosed svc backoff cap mtu fuel st).calls ≤ 1 := by
  cases fuel with
  | zero => simp [runClosed, countStart]
  | succ fuel =>
    rcases hstep : stepIter backoff cap st (.cmd (svc.request (buildStatus mtu st))) with
      ⟨calls, st', ret⟩
    have hle : countStart calls ≤ 1 := by
      have := countStart_stepIter_le backoff cap st (.cmd (svc.request (buildStatus mtu st)))
      rw [hstep] at this
      exact this
    rcases ret with _ | ⟨s, w⟩ | _
    · have hinv := closed_next_startInv svc backoff cap mtu hm st (by rw [hstep])
      rw [hstep] at hinv
      have hzero := countStart_runClosed_zero svc backoff cap mtu fuel st' hinv
      simp [runClosed, hstep, countStart_append, hzero]
      exact hle
    · simp [runClosed, hstep]
      exact hle
    · simp [runClosed, hstep]
      exact hle

/-- Every `device.start` in a closed run carries the expected (target)
version. -/
theorem runClosed_start_version (svc : InMemory) (backoff cap mtu : Nat)
    (fuel : Nat) (st : UpdaterState) (v : Bytes)
    (h : DevCall.startC v ∈ (runClosed svc backoff cap mtu fuel st).calls) :
    v = svc.expected_version := by
  induction fuel generalizing st with
  | zero => simp [runClosed] at h
  | succ fuel ih =>
    rcases hstep : stepIter backoff cap st (.cmd (svc.request (buildStatus mtu st))) with
      ⟨calls, st', ret⟩
    have hmem : DevCall.startC v ∈ calls → v = svc.expected_version := by
      intro hm
      obtain ⟨cid, data, heq⟩ := stepIter_start_mem backoff cap st
        (.cmd (svc.request (buildStatus mtu st))) v (by rw [hstep]; exact hm)
      have hcmd : svc.request (buildStatus mtu st) = .Write v cid 0 data := by
        simpa using heq
      exact request_write_version svc _ v cid 0 data hcmd
    rcases ret with _ | ⟨s, w⟩ | _
    · simp [runClosed, hstep] at h
      rcases h with h1 | h2
      · exact hmem h1
      · exact ih st' h2
    · simp [runClosed, hstep] at h
      exact hmem (by simpa using h)
    · simp [runClosed, hstep] at h
      exact hmem (by simpa using h)

/-- Closed-loop analogue of `request_write_data_le`: every block written to
the device in a run against the reference service fits the advertised MTU. -/
theorem runClosed_write_le (svc : InMemory) (backoff cap mtu : Nat)
    (fuel : Nat) (st : UpdaterState) (off : Nat) (data : Bytes)
    (h : DevCall.writeC off data ∈ (runClosed svc backoff cap mtu fuel st).calls) :
    data.length ≤ mtu := by
  induction fuel generalizing st with
  | zero => simp [runClosed] at h
  | succ fuel ih =>
    rcases hstep : stepIter backoff cap st (.cmd (svc.request (buildStatus mtu st))) with
      ⟨calls, st', ret⟩
    have hmem : DevCall.writeC off data ∈ calls → data.length ≤ mtu := by
      intro hmm
      obtain ⟨v, cid, heq⟩ := stepIter_write_mem backoff cap st
        (.cmd (svc.request (buildStatus mtu st))) off data (by rw [hstep]; exact hmm)
      have hcmd : svc.request (buildStatus mtu st) = .Write v cid off data := by
        simpa using heq
      exact request_write_data_le svc _ mtu (buildStatus_mtu mtu st) v cid off data hcmd
    rcases ret with _ | ⟨s, w⟩ | _
    · simp [runClosed, hstep] at h
      rcases h with h1 | h2
      · exact hmem h1
      · exact ih st' h2
    · simp [runClosed, hstep] at h
      exact hmem (by simpa using h)
    · simp [runClosed, hstep] at h
      exact hmem (by simpa using h)

/-! ## C4: start discipline -/

/-- C4 counterexample: the claim quantifies over every sequence of commands
a service may return, but a service that answers `Write{offset=0}` twice for
the same target version makes the updater call `device.start` twice for that
version (`updater.rs` guards `start` only by `offset == 0`), so "at most
once per target version" fails. -/
theorem updater_double_start_cex :
    (runIters 1000 16 ⟨[0], 0, none⟩
      [.cmd (.Write [1] none 0 [5]), .cmd (.Write [1] none 0 [5])]).calls =
      [DevCall.startC [1], DevCall.writeC 0 [5],
       DevCall.startC [1], DevCall.writeC 0 [5]] ∧
    countStart (runIters 1000 16 ⟨[0], 0, none⟩
      [.cmd (.Write [1] none 0 [5]), .cmd (.Write [1] none 0 [5])]).calls = 2 := by
  decide

/-- C4 amended: `device.start(v)` is called exactly when a `Write` with
`offset == 0` is processed (never for `offset ≠ 0`), immediately before that
command's `device.write`; and against the reference in-memory service (the
normative server semantics) with a positive device MTU, a run calls
`device.start` at most once, always with the service's target version. -/
theorem updater_start_discipline (backoff cap mtu : Nat) (svc : InMemory)
    (hm : 0 < mtu) :
    (∀ st v cid data, (stepIter backoff cap st (.cmd (.Write v cid 0 data))).calls =
      [DevCall.startC v, DevCall.writeC 0 data]) ∧
    (∀ st v cid off data, off ≠ 0 →
      (stepIter backoff cap st (.cmd (.Write v cid off data))).calls =
        [DevCall.writeC off data]) ∧
    (∀ st o v, DevCall.startC v ∈ (stepIter backoff cap st o).calls →
      ∃ cid data, o = .cmd (.Write v cid 0 data)) ∧
    (∀ fuel st, countStart (runClosed svc backoff cap mtu fuel st).calls ≤ 1) ∧
    (∀ fuel st v, DevCall.startC v ∈ (runClosed svc backoff cap mtu fuel st).calls →
      v = svc.expected_version) := by
  refine ⟨?_, ?_, ?_, ?_, ?_⟩
  · intro st v cid data
    exact stepIter_write_calls_zero backoff cap st v cid data
  · intro st v cid off data hoff
    exact stepIter_write_calls_pos backoff cap st v cid off data hoff
  · intro st o v h
    exact stepIter_start_mem backoff cap st o v h
  · intro fuel st
    exact countStart_runClosed_le_one svc backoff cap mtu hm fuel st
  · intro fuel st v h
    exact runClosed_start_version svc backoff cap mtu fuel st v h

/-- Witness for `updater_start_discipline`: a concrete cold update against
the reference service (target `[2]`, 3-byte firmware, MTU 2). -/
theorem updater_start_discipline_witness :
    countStart (runClosed ⟨[2], [9, 9, 9]⟩ 1000 16 2 5 ⟨[1], 0, none⟩).calls ≤ 1 :=
  (updater_start_discipline 1000 16 2 ⟨[2], [9, 9, 9]⟩ (by decide)).2.2.2.1 5 ⟨[1], 0, none⟩

/-! ## C5: the device MTU is respected -/

/-- C5: the updater advertises `Some(F::MTU)` in every status it builds; any
`Write` the in-memory service produces for a status advertising MTU `m` has
`data.len() ≤ m`; consequently every `device.write` block in a closed run
against the in-memory service fits the device MTU. -/
theorem updater_mtu_respected (backoff cap mtu : Nat) (svc : InMemory) :
    (∀ st, (buildStatus mtu st).mtu = some mtu) ∧
    (∀ S m v cid off data, S.mtu = some m →
      svc.request S = .Write v cid off data → data.length ≤ m) ∧
    (∀ fuel st off data,
      DevCall.writeC off data ∈ (runClosed svc backoff cap mtu fuel st).calls →
      data.length ≤ mtu) := by
  refine ⟨buildStatus_mtu mtu, ?_, ?_⟩
  · intro S m v cid off data hm h
    exact request_write_data_le svc S m hm v cid off data h
  · intro fuel st off data h
    exact runClosed_write_le svc backoff cap mtu fuel st off data h

/-- Witness for `updater_mtu_respected`: in the concrete cold update the
first written block `[9, 9]` fits the MTU 2. -/
theorem updater_mtu_respected_witness : ([9, 9] : List Nat).length ≤ 2 :=
  (updater_mtu_respected 1000 16 2 ⟨[2], [9, 9, 9]⟩).2.2 5 ⟨[1], 0, none⟩ 0 [9, 9]
    (by decide)

/-! ## C6: offset accounting in the mirror -/

/-- C6 counterexample: `updater.rs` only ever executes
`next_offset += data.len()`; a change of the target version does NOT reset
the reported offset to 0.  After `Write{version=[1], offset=0, data=[5,5]}`
followed by `Write{version=[2], offset=0, data=[7]}`, the next status
reports offset 3 (2 + 1 accumulated), not the 1 (0 reset + block of 1) the
claim requires. -/
theorem updater_offset_no_reset_cex :
    (buildStatus 4 (runIters 1000 16 ⟨[0], 0, none⟩
      [.cmd (.Write [1] none 0 [5, 5]), .cmd (.Write [2] none 0 [7])]).state).update =
      some ⟨[2], 3⟩ ∧ (3 : Nat) ≠ 1 := by
  decide

/-- C6 amended: for every processed `Write` command (same target version or
not), the committed `next_offset` is exactly the previous `next_offset`
plus `data.len()` — strictly increasing for non-empty blocks — the mirrored
`next_version` becomes the command's version, and the next status reports
exactly that accumulated offset; the offset never resets on a version
change. -/
theorem updater_offset_accumulates (backoff cap mtu : Nat) (st : UpdaterState)
    (v : Bytes) (cid : Option Nat) (off : Nat) (data : Bytes)
    (hcap : v.length ≤ cap) :
    (stepIter backoff cap st (.cmd (.Write v cid off data))).state.next_offset =
      st.next_offset + data.length ∧
    (stepIter backoff cap st (.cmd (.Write v cid off data))).state.next_version = some v ∧
    (buildStatus mtu (stepIter backoff cap st (.cmd (.Write v cid off data))).state).update =
      some ⟨v, st.next_offset + data.length⟩ ∧
    (data ≠ [] → st.next_offset <
      (stepIter backoff cap st (.cmd (.Write v cid off data))).state.next_offset) := by
  have hfs : fromSlice cap v = some v := by simp [fromSlice, hcap]
  refine ⟨by simp [stepIter, hfs], by simp [stepIter, hfs],
    by simp [stepIter, hfs, buildStatus], ?_⟩
  intro hd
  have hlen : 0 < data.length := List.length_pos.mpr hd
  simp [stepIter, hfs]
  omega

/-- Witness for `updater_offset_accumulates`: a version-changing `Write`
continues from the accumulated offset (5 + 2 = 7). -/
theorem updater_offset_accumulates_witness :
    (stepIter 1000 16 ⟨[0], 5, some [1]⟩
      (.cmd (.Write [2] none 0 [7, 7]))).state.next_offset = 7 := by
  have h := (updater_offset_accumulates 1000 16 4 ⟨[0], 5, some [1]⟩ [2] none 0 [7, 7]
    (by decide)).1
  simpa using h

/-! ## C10: the serial device adapter's `write` unwraps `next_version` -/

/-- C10: `Serial::write` unwraps the locally mirrored `next_version`
(`device/serial.rs`, line 105); while `next_version` is `None` — before any
`start` or any `status()` that carried an `update` sub-record — the call
panics (modelled as `none`) instead of returning an error.  After a
successful `start(v)` the mirror holds `Some v`, so the unwrap cannot panic
and `write` encodes `Command::Write{version=v, offset, data}`; a `status()`
that received an `update` sub-record likewise populates the mirror. -/
theorem serial_write_unwrap (st : SerialState) (v : Bytes) :
    (st.next_version = none → ∀ off data, serialWrite st off data = none) ∧
    (∀ st', serialStart st v = .ok st' →
      ∀ off data, serialWrite st' off data = some (Command.Write v none off data)) ∧
    (∀ S u st', S.update = some u → serialStatus st S = .ok st' →
      st'.next_version = some u.version) := by
  refine ⟨?_, ?_, ?_⟩
  · intro h off data
    simp [serialWrite, h]
  · intro st' hok off data
    unfold serialStart at hok
    by_cases hc : v.length ≤ serialCap
    · simp [hc] at hok
      simp [serialWrite, ← hok]
    · simp [hc] at hok
  · intro S u st' hu hok
    unfold serialStatus at hok
    by_cases hc : S.version.length ≤ serialCap
    · rw [hu] at hok
      by_cases hc2 : u.version.length ≤ serialCap
      · simp [hc, hc2] at hok
        simp [← hok]
      · simp [hc, hc2] at hok
    · simp [hc] at hok

/-- Witness for `serial_write_unwrap`: with no mirrored next version the
write panics; after `start([2])` it succeeds. -/
theorem serial_write_unwrap_witness :
    serialWrite ⟨[1], 0, none⟩ 4 [8] = none ∧
    serialWrite ⟨[1], 0, some [2]⟩ 4 [8] = some (Command.Write [2] none 4 [8]) :=
  ⟨(serial_write_unwrap ⟨[1], 0, none⟩ [2]).1 rfl 4 [8],
   (serial_write_unwrap ⟨[1], 0, none⟩ [2]).2.1 ⟨[1], 0, some [2]⟩ rfl 4 [8]⟩

end EmbeddedUpdate
